import Mathlib

/-!
Shallow embedding of the 3d-map camera-animation engine: the camera
projector (`computeCameraPosition` with its module-level smoothing cache
made explicit state), the fly-in and path-follow animation drivers, the
bearing-schedule precompute (`initData`), the great-circle projection
kernel (`projectPointToGreatCircle`), bearing normalization, and the
zoom/height converter.  JavaScript numbers are modelled as real numbers,
the JavaScript `%` operator as truncated remainder, thrown errors as
`Except.error`, and `undefined` as `Option.none`.
-/

open scoped Classical

namespace ThreeDMap

noncomputable section

/-- JavaScript `Math.trunc`-style truncation toward zero, used by the
semantics of the JavaScript `%` operator. -/
def jsTrunc (x : ℝ) : ℤ :=
if 0 ≤ x then ⌊x⌋ else ⌈x⌉

/-- The JavaScript remainder operator `x % y`: the result has the sign of
the dividend, `x % y = x - y * trunc (x / y)`. -/
def jsMod (x y : ℝ) : ℝ :=
x - y * jsTrunc (x / y)

/-- Linear interpolation helper from the source: `(1 - amt) * start + amt * end`. -/
def lerp (start finish amt : ℝ) : ℝ :=
(1 - amt) * start + amt * finish

/-- A geographic position `{lng, lat}` in degrees. -/
structure LngLat where
  lng : ℝ
  lat : ℝ

/-- The camera projector.  Given pitch, bearing, a target ground point and
an altitude it computes the corrected camera ground position; with
`smooth = true` it blends against the module-level previous position.  The
mutable module-level cache `previousCameraPosition` is threaded explicitly:
the second component of the result is the cache value after the call. -/
def computeCameraPosition (pitch bearing : ℝ) (targetPosition : LngLat)
    (altitude : ℝ) (smooth : Bool) (previousCameraPosition : Option LngLat) :
    LngLat × Option LngLat :=
  let bearingInRadian := bearing * (Real.pi / 180)
  let pitchInRadian := (90 - pitch) * (Real.pi / 180)
  let lngDiff := altitude / Real.tan pitchInRadian * Real.sin (-bearingInRadian) /
    (111320 * Real.cos (targetPosition.lat * (Real.pi / 180)))
  let latDiff := altitude / Real.tan pitchInRadian * Real.cos (-bearingInRadian) / 111320
  let correctedLng := targetPosition.lng + lngDiff
  let correctedLat := targetPosition.lat - latDiff
  let newCameraPosition : LngLat := ⟨correctedLng, correctedLat⟩
  let newCameraPosition : LngLat :=
    if smooth then
      match previousCameraPosition with
      | some prev =>
          ⟨lerp newCameraPosition.lng prev.lng 0.95, lerp newCameraPosition.lat prev.lat 0.95⟩
      | none => newCameraPosition
    else newCameraPosition
  (newCameraPosition, some newCameraPosition)

/-- IEEE `atan2 y x` on real inputs, quadrant-correct two-argument arctangent. -/
def atan2 (y x : ℝ) : ℝ :=
  if 0 < x then Real.arctan (y / x)
  else if x < 0 then
    (if 0 ≤ y then Real.arctan (y / x) + Real.pi else Real.arctan (y / x) - Real.pi)
  else
    (if 0 < y then Real.pi / 2 else if y < 0 then -(Real.pi / 2) else 0)

/-- Degrees to radians (geodesy kernel). -/
def degreesToRadians (degrees : ℝ) : ℝ :=
degrees * Real.pi / 180

/-- Radians to degrees (geodesy kernel). -/
def radiansToDegrees (radians : ℝ) : ℝ :=
radians * 180 / Real.pi

/-- A Cartesian vector, used for points on the unit sphere. -/
structure Vec3 where
  x : ℝ
  y : ℝ
  z : ℝ

/-- The cross product `A × B`, as inlined in the source's projection code. -/
def crossVec (A B : Vec3) : Vec3 :=
⟨A.y * B.z - A.z * B.y, A.z * B.x - A.x * B.z, A.x * B.y - A.y * B.x⟩

/-- The dot product `A · B`, as inlined in the source's projection code. -/
def dotVec (A B : Vec3) : ℝ :=
A.x * B.x + A.y * B.y + A.z * B.z

/-- Latitude/longitude (degrees) to Cartesian coordinates on the unit sphere. -/
def latLonToCartesian (lat lon : ℝ) : Vec3 :=
  let latRad := degreesToRadians lat
  let lonRad := degreesToRadians lon
  ⟨Real.cos latRad * Real.cos lonRad, Real.cos latRad * Real.sin lonRad, Real.sin latRad⟩

/-- Cartesian coordinates on the unit sphere back to latitude/longitude. -/
def cartesianToLatLon (x y z : ℝ) : ℝ × ℝ :=
  (radiansToDegrees (atan2 z (Real.sqrt (x * x + y * y))),
   radiansToDegrees (atan2 y x))

/-- The message of the degenerate-great-circle error. -/
def degenerateMsg : String :=
"Points A and B are coincident or antipodal - great circle is not unique"

/-- Projects point C onto the great circle through A and B: subtract from C
its component along the plane normal `A × B` and renormalize, failing when
the normal's squared length is below `1e-12`. -/
def projectPointToGreatCircle (latA lonA latB lonB latC lonC : ℝ) :
    Except String (ℝ × ℝ) :=
  let A := latLonToCartesian latA lonA
  let B := latLonToCartesian latB lonB
  let C := latLonToCartesian latC lonC
  let n := crossVec A B
  let dotCN := dotVec C n
  let nNormSq := dotVec n n
  if nNormSq < 1e-12 then
    Except.error degenerateMsg
  else
    let Cprime : Vec3 :=
      ⟨C.x - dotCN / nNormSq * n.x, C.y - dotCN / nNormSq * n.y, C.z - dotCN / nNormSq * n.z⟩
    let nrm := Real.sqrt (Cprime.x * Cprime.x + Cprime.y * Cprime.y + Cprime.z * Cprime.z)
    Except.ok (cartesianToLatLon (Cprime.x / nrm) (Cprime.y / nrm) (Cprime.z / nrm))

/-- The value returned by `projectPointToGreatCircle` in the
non-degenerate case: subtract from `C` its component along the normal `n`,
renormalize to the unit sphere, and convert back to latitude/longitude. -/
def projectedPoint (C n : Vec3) : ℝ × ℝ :=
  let dotCN := dotVec C n
  let nNormSq := dotVec n n
  let Cprime : Vec3 :=
    ⟨C.x - dotCN / nNormSq * n.x, C.y - dotCN / nNormSq * n.y, C.z - dotCN / nNormSq * n.z⟩
  let nrm := Real.sqrt (Cprime.x * Cprime.x + Cprime.y * Cprime.y + Cprime.z * Cprime.z)
  cartesianToLatLon (Cprime.x / nrm) (Cprime.y / nrm) (Cprime.z / nrm)

/-- Modelled from the spec: the cubic ease-out curve (`d3.easeCubicOut`
from the external d3 library), an interpolation curve that starts fast and
decelerates into the endpoint, reaching exactly 1 at phase 1. -/
def easeCubicOut (t : ℝ) : ℝ :=
(t - 1) ^ 3 + 1

/-- The camera state emitted by one frame of the fly-in driver. -/
structure FlyFrame where
  phase : ℝ
  bearing : ℝ
  pitch : ℝ
  altitude : ℝ

/-- One frame of the fly-in driver `flyInAndRotate`, as a function of the
elapsed wall-clock time: clamp the phase to 1, ease, and interpolate
bearing, pitch and altitude.  The easing curve is a parameter (the source
uses the external `d3.easeCubicOut`). -/
def flyInFrame (ease : ℝ → ℝ) (startAltitude endAltitude startBearing endBearing
    startPitch endPitch duration elapsed : ℝ) : FlyFrame :=
  let animationPhase := elapsed / duration
  let animationPhase := if animationPhase > 1 then 1 else animationPhase
  { phase := animationPhase
    bearing := startBearing + (endBearing - startBearing) * ease animationPhase
    pitch := startPitch + (endPitch - startPitch) * ease animationPhase
    altitude := startAltitude + (endAltitude - startAltitude) * ease animationPhase }

/-- The fly-in driver resolves its promise on the frame whose clamped phase
is exactly 1; the payload is that frame's `{bearing, altitude}`. -/
def flyInResolves (ease : ℝ → ℝ) (startAltitude endAltitude startBearing endBearing
    startPitch endPitch duration elapsed : ℝ) : Prop :=
  (flyInFrame ease startAltitude endAltitude startBearing endBearing
    startPitch endPitch duration elapsed).phase = 1

/-- The path-follow driver's animation phase at frame counter `index`:
`speed * index / (distance * 1000)` where `distance` is the track length in
kilometers and `speed` is in meters per frame. -/
def animatePathPhase (speed distance : ℝ) (index : ℕ) : ℝ :=
speed * index / (distance * 1000)

/-- The path-follow driver's terminal condition: the phase exceeds 1. -/
def animatePathTerminal (speed distance : ℝ) (index : ℕ) : Prop :=
animatePathPhase speed distance index > 1

/-- One entry of the precomputed bearing schedule:
`{l, lRatio, r, rRatio, bearing}`. -/
structure BearingSeg where
  l : ℕ
  lRatio : ℝ
  r : ℕ
  rRatio : ℝ
  bearing : ℝ

/-- The shortest signed angular difference from `currentBearing` to
`targetBearing`, after normalizing both to `[0, 360)` with the JavaScript
`%` operator. -/
def normalizeBearing (currentBearing targetBearing : ℝ) : ℝ :=
  let c := jsMod (jsMod currentBearing 360 + 360) 360
  let t := jsMod (jsMod targetBearing 360 + 360) 360
  let diff1 := jsMod (t - c + 360) 360
  let diff2 := diff1 - 360
  if |diff1| ≤ |diff2| then diff1 else diff2

/-- The forward azimuth from `p1` to `p2` (positions as `[lng, lat]`), via
the standard spherical bearing formula, normalized to `[0, 360)`. -/
def getBearing (p1 p2 : ℝ × ℝ) : ℝ :=
  let rad := Real.pi / 180
  let y := Real.sin ((p2.1 - p1.1) * rad) * Real.cos (p2.2 * rad)
  let x := Real.cos (p1.2 * rad) * Real.sin (p2.2 * rad) -
    Real.sin (p1.2 * rad) * Real.cos (p2.2 * rad) * Real.cos ((p2.1 - p1.1) * rad)
  jsMod (atan2 y x * (180 / Real.pi) + 360) 360

/-- The per-frame bearing update of the path-follow driver `animatePath`:
given the schedule, the advancing interval index `nextBearingIndex` and the
current phase, return the new interval index and the emitted bearing
(`none` models the JavaScript `undefined`; the outer `Option` models the
crash when `bearingList[nextBearingIndex - 1]` is `undefined`).  The blend
branch reproduces the JavaScript truthiness test `nextBearing && ...`: it
is skipped when the next interval is missing or its bearing is `0`. -/
def animatePathBearingStep (bearingList : List BearingSeg) (nextBearingIndex : ℕ)
    (animationPhase : ℝ) : Option (ℕ × Option ℝ) :=
  match bearingList.get? (nextBearingIndex - 1) with
  | none => none
  | some cur =>
    let nextBearing : Option ℝ := (bearingList.get? nextBearingIndex).map BearingSeg.bearing
    let ratio : ℝ := 0.2
    let lRangeRatio := cur.lRatio + (cur.rRatio - cur.lRatio) * (1 - ratio)
    if cur.rRatio ≤ animationPhase then
      some (nextBearingIndex + 1, nextBearing)
    else
      match nextBearing with
      | some nb =>
        if nb ≠ 0 ∧ animationPhase < cur.rRatio ∧ lRangeRatio ≤ animationPhase then
          some (nextBearingIndex,
            some (cur.bearing + normalizeBearing cur.bearing nb *
              ((animationPhase - lRangeRatio) / (cur.rRatio - lRangeRatio))))
        else some (nextBearingIndex, some cur.bearing)
      | none => some (nextBearingIndex, some cur.bearing)

/-- The walk of `initData` over the track's coordinates: whenever the
current coordinate exactly equals the next unconsumed simplified vertex,
close a bearing interval from the previous boundary index to the current
index.  `ρ` abstracts the external `getLineRatio` (length of the slice of
the track from its start to the given point, via turf) and `dist` the
external total track length.  The result is `none` when the walk reads
past the end of the simplified vertex list (a crash in the JavaScript). -/
def initDataLoop (coordsAll simplified : List (ℝ × ℝ)) (ρ : ℝ × ℝ → ℝ) (dist : ℝ) :
    List (ℝ × ℝ) → ℕ → ℕ → ℕ → List BearingSeg → Option (List BearingSeg)
  | [], _, _, _, acc => some acc.reverse
  | coordinate :: rest, index, simplifiedIndex, lastIndex, acc =>
    match simplified.get? simplifiedIndex with
    | none => none
    | some s =>
      if coordinate = s then
        initDataLoop coordsAll simplified ρ dist rest (index + 1) (simplifiedIndex + 1) index
          ({ l := lastIndex
             lRatio := ρ (coordsAll.getD lastIndex (0, 0)) / dist
             r := index
             rRatio := ρ (coordsAll.getD index (0, 0)) / dist
             bearing := getBearing (simplified.getD (simplifiedIndex - 1) (0, 0)) coordinate } :: acc)
      else
        initDataLoop coordsAll simplified ρ dist rest (index + 1) simplifiedIndex lastIndex acc

/-- The bearing-schedule precompute of `initData`: walk the track's
coordinates with `simplifiedIndex` starting at 1 and `lastIndex` at 0. -/
def initData (coords simplified : List (ℝ × ℝ)) (ρ : ℝ × ℝ → ℝ) (dist : ℝ) :
    Option (List BearingSeg) :=
  initDataLoop coords simplified ρ dist coords 0 1 0 []

/-- Structural invariant of the schedule produced by `initDataLoop`: the
first interval starts at index `k`, every interval's boundary ratios are
`ρ` of the corresponding track coordinate divided by `dist`, and each
interval starts where the previous one ended. -/
def ChainedFrom (coordsAll : List (ℝ × ℝ)) (ρ : ℝ × ℝ → ℝ) (dist : ℝ) :
    ℕ → List BearingSeg → Prop
  | _, [] => True
  | k, seg :: rest =>
    seg.l = k ∧ seg.lRatio = ρ (coordsAll.getD k (0, 0)) / dist ∧
      seg.rRatio = ρ (coordsAll.getD seg.r (0, 0)) / dist ∧
      ChainedFrom coordsAll ρ dist seg.r rest

/-- A two-interval track instance used to exercise the schedule precompute:
three collinear points, of which all three survive simplification. -/
def exTrack : List (ℝ × ℝ) :=
[(0, 0), (1, 0), (2, 0)]

/-- The bearing schedule that `initData` produces on `exTrack` with the
x-coordinate as the abstract line-ratio function and total length 2. -/
def exSchedule : List BearingSeg :=
[⟨0, 0, 1, 1 / 2, getBearing (0, 0) (1, 0)⟩,
 ⟨1, 1 / 2, 2, 1, getBearing (1, 0) (2, 0)⟩]

/-- A two-interval schedule whose second interval has bearing `0` (due
north), exercising the JavaScript truthiness test in the blend branch. -/
def C4bl : List BearingSeg :=
[⟨0, 0, 1, 1 / 2, 90⟩, ⟨1, 1 / 2, 2, 1, 0⟩]

/-- A two-interval schedule with a nonzero next bearing, on which the
blend branch does fire. -/
def C4blw : List BearingSeg :=
[⟨0, 0, 1, 1 / 2, 90⟩, ⟨1, 1 / 2, 2, 1, 180⟩]

namespace MapboxZoomHeightConverter

/-- The Web Mercator earth radius constant of the converter, in meters. -/
def EARTH_RADIUS : ℝ :=
6378137

/-- Camera height from zoom and pitch:
`EARTH_RADIUS / 2 ^ zoom`, divided by `cos pitch` when `pitch ≠ 0`. -/
def zoomToHeight (zoom pitch : ℝ) : ℝ :=
  let zoomFactor := (2 : ℝ) ^ zoom
  let height := EARTH_RADIUS / zoomFactor
  if pitch = 0 then height else height / Real.cos (pitch * (Real.pi / 180))

/-- Zoom from camera height and pitch: multiply the height by `cos pitch`
when `pitch ≠ 0`, then take `log2 (EARTH_RADIUS / adjustedHeight)`. -/
def heightToZoom (height pitch : ℝ) : ℝ :=
  let adjustedHeight := if pitch = 0 then height else height * Real.cos (pitch * (Real.pi / 180))
  Real.logb 2 (EARTH_RADIUS / adjustedHeight)

end MapboxZoomHeightConverter

theorem jsMod_self_of_lt {x y : ℝ} (h0 : 0 ≤ x) (h1 : x < y) : jsMod x y = x := by
  have hy : 0 < y := lt_of_le_of_lt h0 h1
  have hq : 0 ≤ x / y := div_nonneg h0 hy.le
  have ht : jsTrunc (x / y) = 0 := by
    rw [jsTrunc, if_pos hq]
    exact Int.floor_eq_zero_iff.mpr ⟨hq, (div_lt_one hy).mpr h1⟩
  simp [jsMod, ht]

theorem jsMod_sub_of_le {x y : ℝ} (h0 : y ≤ x) (h1 : x < 2 * y) : jsMod x y = x - y := by
  have hy : 0 < y := by nlinarith
  have hq : 0 ≤ x / y := div_nonneg (hy.le.trans h0) hy.le
  have ht : jsTrunc (x / y) = 1 := by
    rw [jsTrunc, if_pos hq]
    refine Int.floor_eq_iff.mpr ⟨?_, ?_⟩
    · exact_mod_cast (one_le_div hy).mpr h0
    · push_cast
      exact (div_lt_iff hy).mpr (by linarith)
  rw [jsMod, ht]
  push_cast
  ring

/-- Claim C9: `normalizeBearing 10 350` returns `-20`, the shortest signed
angular difference (decreasing through 0), not `340`. -/
theorem C9_normalizeBearing_shortest_path :
    normalizeBearing 10 350 = -20 ∧ (-20 : ℝ) ≠ 340 := by
  constructor
  · have e1 : jsMod (10 : ℝ) 360 = 10 := jsMod_self_of_lt (by norm_num) (by norm_num)
    have e2 : jsMod (350 : ℝ) 360 = 350 := jsMod_self_of_lt (by norm_num) (by norm_num)
    have e3 : jsMod ((10 : ℝ) + 360) 360 = 10 := by
      rw [jsMod_sub_of_le (by norm_num) (by norm_num)]
      norm_num
    have e4 : jsMod ((350 : ℝ) + 360) 360 = 350 := by
      rw [jsMod_sub_of_le (by norm_num) (by norm_num)]
      norm_num
    have e5 : jsMod ((350 : ℝ) - 10 + 360) 360 = 340 := by
      rw [jsMod_sub_of_le (by norm_num) (by norm_num)]
      norm_num
    have e6 : ¬ (|(340 : ℝ)| ≤ |340 - 360|) := by
      rw [abs_of_nonneg (by norm_num : (0:ℝ) ≤ 340),
        show (340 : ℝ) - 360 = -20 by norm_num, abs_neg,
        abs_of_nonneg (by norm_num : (0:ℝ) ≤ 20)]
      norm_num
    simp only [normalizeBearing]
    rw [e1, e2, e3, e4, e5, if_neg e6]
    norm_num
  · norm_num

/-- Claim C1: for every pitch, bearing, target ground point and altitude,
`computeCameraPosition` (without smoothing) returns the target shifted by
a horizontal offset of magnitude `altitude / tan ((90 - pitch) rad)` whose
longitude component uses `sin (-bearingRad)` divided by
`111320 * cos (target latitude rad)` and whose latitude component uses
`cos (-bearingRad)` divided by `111320`, the longitude offset being added
and the latitude offset subtracted. -/
theorem C1_computeCameraPosition_offset (pitch bearing : ℝ) (target : LngLat)
    (altitude : ℝ) (prev : Option LngLat) :
    (computeCameraPosition pitch bearing target altitude false prev).1.lng
      = target.lng + altitude / Real.tan ((90 - pitch) * (Real.pi / 180)) *
          Real.sin (-(bearing * (Real.pi / 180))) /
          (111320 * Real.cos (target.lat * (Real.pi / 180)))
    ∧ (computeCameraPosition pitch bearing target altitude false prev).1.lat
      = target.lat - altitude / Real.tan ((90 - pitch) * (Real.pi / 180)) *
          Real.cos (-(bearing * (Real.pi / 180))) / 111320 :=
  ⟨rfl, rfl⟩

/-- Claim C2: with smoothing enabled and a previously stored camera
position, each output coordinate is `lerp (new, previous, 0.95)`, i.e.
`0.95` times the previous stored coordinate plus `0.05` times the freshly
computed raw coordinate, where `lerp start end amt = (1-amt)*start + amt*end`. -/
theorem C2_computeCameraPosition_smoothing (pitch bearing : ℝ) (target : LngLat)
    (altitude : ℝ) (prev : LngLat) :
    (∀ s e a : ℝ, lerp s e a = (1 - a) * s + a * e)
    ∧ (computeCameraPosition pitch bearing target altitude true (some prev)).1.lng
        = lerp (computeCameraPosition pitch bearing target altitude false none).1.lng
            prev.lng 0.95
    ∧ (computeCameraPosition pitch bearing target altitude true (some prev)).1.lat
        = lerp (computeCameraPosition pitch bearing target altitude false none).1.lat
            prev.lat 0.95
    ∧ (computeCameraPosition pitch bearing target altitude true (some prev)).1.lng
        = 0.95 * prev.lng +
            0.05 * (computeCameraPosition pitch bearing target altitude false none).1.lng
    ∧ (computeCameraPosition pitch bearing target altitude true (some prev)).1.lat
        = 0.95 * prev.lat +
            0.05 * (computeCameraPosition pitch bearing target altitude false none).1.lat := by
  have hl : ∀ u v : ℝ, lerp u v 0.95 = 0.95 * v + 0.05 * u := by
    intro u v
    rw [lerp]
    ring_nf
  refine ⟨fun s e a => rfl, rfl, rfl, ?_, ?_⟩
  · rw [show (computeCameraPosition pitch bearing target altitude true (some prev)).1.lng
        = lerp (computeCameraPosition pitch bearing target altitude false none).1.lng
            prev.lng 0.95 from rfl, hl]
  · rw [show (computeCameraPosition pitch bearing target altitude true (some prev)).1.lat
        = lerp (computeCameraPosition pitch bearing target altitude false none).1.lat
            prev.lat 0.95 from rfl, hl]

/-- Claim C10: every call to `computeCameraPosition` overwrites the
previous-position cache with the position it returns, smoothing or not; a
smoothing call made with an empty cache returns the raw unblended
position; and a smoothing call chained after any prior call blends against
that prior call's output. -/
theorem C10_computeCameraPosition_cache :
    (∀ (pitch bearing : ℝ) (target : LngLat) (altitude : ℝ) (smooth : Bool)
        (prev : Option LngLat),
      (computeCameraPosition pitch bearing target altitude smooth prev).2
        = some (computeCameraPosition pitch bearing target altitude smooth prev).1)
    ∧ (∀ (pitch bearing : ℝ) (target : LngLat) (altitude : ℝ),
      (computeCameraPosition pitch bearing target altitude true none).1
        = (computeCameraPosition pitch bearing target altitude false none).1)
    ∧ (∀ (p1 b1 : ℝ) (t1 : LngLat) (a1 : ℝ) (s1 : Bool) (prev0 : Option LngLat)
        (p2 b2 : ℝ) (t2 : LngLat) (a2 : ℝ),
      (computeCameraPosition p2 b2 t2 a2 true
          (computeCameraPosition p1 b1 t1 a1 s1 prev0).2).1.lng
        = lerp (computeCameraPosition p2 b2 t2 a2 false none).1.lng
            (computeCameraPosition p1 b1 t1 a1 s1 prev0).1.lng 0.95
      ∧ (computeCameraPosition p2 b2 t2 a2 true
          (computeCameraPosition p1 b1 t1 a1 s1 prev0).2).1.lat
        = lerp (computeCameraPosition p2 b2 t2 a2 false none).1.lat
            (computeCameraPosition p1 b1 t1 a1 s1 prev0).1.lat 0.95) :=
  ⟨fun _ _ _ _ _ _ => rfl, fun _ _ _ _ => rfl, fun _ _ _ _ _ _ _ _ _ _ => ⟨rfl, rfl⟩⟩

theorem normalizeBearing_90_180 : normalizeBearing 90 180 = 90 := by
  have e1 : jsMod (90 : ℝ) 360 = 90 := jsMod_self_of_lt (by norm_num) (by norm_num)
  have e2 : jsMod ((90 : ℝ) + 360) 360 = 90 := by
    rw [jsMod_sub_of_le (by norm_num) (by norm_num)]
    norm_num
  have e3 : jsMod (180 : ℝ) 360 = 180 := jsMod_self_of_lt (by norm_num) (by norm_num)
  have e4 : jsMod ((180 : ℝ) + 360) 360 = 180 := by
    rw [jsMod_sub_of_le (by norm_num) (by norm_num)]
    norm_num
  have e5 : jsMod ((180 : ℝ) - 90 + 360) 360 = 90 := by
    rw [jsMod_sub_of_le (by norm_num) (by norm_num)]
    norm_num
  have e6 : |(90 : ℝ)| ≤ |90 - 360| := by
    rw [abs_of_nonneg (by norm_num : (0:ℝ) ≤ 90),
      show (90 : ℝ) - 360 = -270 by norm_num, abs_neg,
      abs_of_nonneg (by norm_num : (0:ℝ) ≤ 270)]
    norm_num
  simp only [normalizeBearing]
  rw [e1, e3, e2, e4, e5, if_pos e6]

theorem normalizeBearing_90_0 : normalizeBearing 90 0 = -90 := by
  have e1 : jsMod (90 : ℝ) 360 = 90 := jsMod_self_of_lt (by norm_num) (by norm_num)
  have e2 : jsMod ((90 : ℝ) + 360) 360 = 90 := by
    rw [jsMod_sub_of_le (by norm_num) (by norm_num)]
    norm_num
  have e3 : jsMod (0 : ℝ) 360 = 0 := jsMod_self_of_lt (by norm_num) (by norm_num)
  have e4 : jsMod ((0 : ℝ) + 360) 360 = 0 := by
    rw [jsMod_sub_of_le (by norm_num) (by norm_num)]
    norm_num
  have e5 : jsMod ((0 : ℝ) - 90 + 360) 360 = 270 := by
    rw [jsMod_self_of_lt (by norm_num) (by norm_num)]
    norm_num
  have e6 : ¬ (|(270 : ℝ)| ≤ |270 - 360|) := by
    rw [abs_of_nonneg (by norm_num : (0:ℝ) ≤ 270),
      show (270 : ℝ) - 360 = -90 by norm_num, abs_neg,
      abs_of_nonneg (by norm_num : (0:ℝ) ≤ 90)]
    norm_num
  simp only [normalizeBearing]
  rw [e1, e3, e2, e4, e5, if_neg e6]
  norm_num

/-- Claim C4 (amended): during path-follow playback, a frame whose phase
is in the current interval but before the trailing ease window (the last
0.2 fraction of the ratio span) emits the current interval's bearing
exactly; a frame inside the ease window with a next interval whose bearing
is nonzero emits the current bearing plus the shortest signed difference
toward the next bearing scaled linearly by the position in the window —
but when the next interval's bearing is exactly 0 the JavaScript
truthiness test skips the blend and the current bearing is kept; and at
the first frame whose phase reaches the interval's end ratio the interval
index advances and the bearing snaps to the newly current interval's
bearing. -/
theorem C4_animatePath_bearing_amended (bearingList : List BearingSeg)
    (nextBearingIndex : ℕ) (animationPhase : ℝ) (cur : BearingSeg)
    (hcur : bearingList.get? (nextBearingIndex - 1) = some cur) :
    (animationPhase < cur.rRatio →
      animationPhase < cur.lRatio + (cur.rRatio - cur.lRatio) * (1 - 0.2) →
      animatePathBearingStep bearingList nextBearingIndex animationPhase
        = some (nextBearingIndex, some cur.bearing))
    ∧ (∀ next : BearingSeg, bearingList.get? nextBearingIndex = some next →
        next.bearing ≠ 0 →
        cur.lRatio + (cur.rRatio - cur.lRatio) * (1 - 0.2) ≤ animationPhase →
        animationPhase < cur.rRatio →
        animatePathBearingStep bearingList nextBearingIndex animationPhase
          = some (nextBearingIndex, some (cur.bearing +
              normalizeBearing cur.bearing next.bearing *
                ((animationPhase - (cur.lRatio + (cur.rRatio - cur.lRatio) * (1 - 0.2))) /
                  (cur.rRatio - (cur.lRatio + (cur.rRatio - cur.lRatio) * (1 - 0.2)))))))
    ∧ (∀ next : BearingSeg, bearingList.get? nextBearingIndex = some next →
        next.bearing = 0 →
        animationPhase < cur.rRatio →
        animatePathBearingStep bearingList nextBearingIndex animationPhase
          = some (nextBearingIndex, some cur.bearing))
    ∧ (∀ next : BearingSeg, bearingList.get? nextBearingIndex = some next →
        cur.rRatio ≤ animationPhase →
        animatePathBearingStep bearingList nextBearingIndex animationPhase
          = some (nextBearingIndex + 1, some next.bearing)) := by
  refine ⟨?_, ?_, ?_, ?_⟩
  · intro h1 h2
    cases hnx : bearingList.get? nextBearingIndex with
    | none =>
      simp only [animatePathBearingStep, hcur, hnx, Option.map_none']
      rw [if_neg (not_le.mpr h1)]
    | some nxt =>
      simp only [animatePathBearingStep, hcur, hnx, Option.map_some']
      rw [if_neg (not_le.mpr h1), if_neg]
      push_neg
      intro _ _
      linarith
  · intro next hnx hnz hwin hlt
    simp only [animatePathBearingStep, hcur, hnx, Option.map_some']
    rw [if_neg (not_le.mpr hlt), if_pos ⟨hnz, hlt, hwin⟩]
  · intro next hnx hz hlt
    simp only [animatePathBearingStep, hcur, hnx, Option.map_some']
    rw [if_neg (not_le.mpr hlt), if_neg]
    intro hcontra
    exact hcontra.1 hz
  · intro next hnx hge
    simp only [animatePathBearingStep, hcur, hnx, Option.map_some']
    rw [if_pos hge]

/-- Claim C4, counterexample to the claim as stated: with a next interval
whose bearing is exactly 0, a frame inside the ease window keeps the
current bearing 90 instead of the claimed blended value, because the
JavaScript truthiness test `nextBearing && ...` treats bearing 0 as
missing. -/
theorem C4_counterexample_zero_next_bearing :
    animatePathBearingStep C4bl 1 0.45 = some (1, some 90)
    ∧ (90 : ℝ) ≠ 90 + normalizeBearing 90 0 *
        ((0.45 - (0 + ((1 : ℝ) / 2 - 0) * (1 - 0.2))) /
          ((1 : ℝ) / 2 - (0 + ((1 : ℝ) / 2 - 0) * (1 - 0.2)))) := by
  constructor
  · have hc : C4bl.get? (1 - 1) = some ⟨0, 0, 1, 1 / 2, 90⟩ := rfl
    have hn : C4bl.get? 1 = some ⟨1, 1 / 2, 2, 1, 0⟩ := rfl
    simp only [animatePathBearingStep, hc, hn, Option.map_some']
    rw [if_neg (show ¬ ((1 : ℝ) / 2 ≤ 0.45) by norm_num),
      if_neg (show ¬ ((0 : ℝ) ≠ 0 ∧ (0.45 : ℝ) < 1 / 2 ∧
        (0 : ℝ) + ((1 : ℝ) / 2 - 0) * (1 - 0.2) ≤ 0.45) from fun h => h.1 rfl)]
  · rw [normalizeBearing_90_0]
    norm_num

theorem C4_witness :
    animatePathBearingStep C4blw 1 0.45 = some (1, some 135) := by
  have hc : C4blw.get? (1 - 1) = some ⟨0, 0, 1, 1 / 2, 90⟩ := rfl
  have hn : C4blw.get? 1 = some ⟨1, 1 / 2, 2, 1, 180⟩ := rfl
  have h := (C4_animatePath_bearing_amended C4blw 1 0.45 ⟨0, 0, 1, 1 / 2, 90⟩ hc).2.1
    ⟨1, 1 / 2, 2, 1, 180⟩ hn (show (180 : ℝ) ≠ 0 by norm_num)
    (show (0 : ℝ) + ((1 : ℝ) / 2 - 0) * (1 - 0.2) ≤ 0.45 by norm_num)
    (show (0.45 : ℝ) < 1 / 2 by norm_num)
  rw [h, normalizeBearing_90_180]
  norm_num

theorem crossVec_self (A : Vec3) : crossVec A A = ⟨0, 0, 0⟩ := by
  simp only [crossVec, Vec3.mk.injEq]
  refine ⟨by ring, by ring, by ring⟩

theorem crossVec_neg (A : Vec3) : crossVec A ⟨-A.x, -A.y, -A.z⟩ = ⟨0, 0, 0⟩ := by
  simp only [crossVec, Vec3.mk.injEq]
  refine ⟨by ring, by ring, by ring⟩

theorem latLonToCartesian_antipodal (lat lon : ℝ) :
    latLonToCartesian (-lat) (lon + 180) =
      ⟨-(latLonToCartesian lat lon).x, -(latLonToCartesian lat lon).y,
        -(latLonToCartesian lat lon).z⟩ := by
  simp only [latLonToCartesian, degreesToRadians, Vec3.mk.injEq]
  have h1 : (lon + 180) * Real.pi / 180 = lon * Real.pi / 180 + Real.pi := by ring
  have h2 : -lat * Real.pi / 180 = -(lat * Real.pi / 180) := by ring
  rw [h1, h2]
  simp only [Real.cos_neg, Real.sin_neg, Real.cos_add, Real.sin_add, Real.cos_pi, Real.sin_pi]
  refine ⟨by ring, by ring, by ring⟩

theorem dotVec_zero : dotVec ⟨0, 0, 0⟩ ⟨0, 0, 0⟩ = 0 := by
  simp [dotVec]

/-- Claim C3: `projectPointToGreatCircle A B C` raises the
degenerate-great-circle error exactly when the squared length of the plane
normal `A × B` is below `1e-12` — which covers `A` and `B` coincident (in
particular identical latitude/longitude inputs) or antipodal — and for all
other `A`, `B` it returns, without error, the renormalized result of
subtracting from `C` its component along the normal. -/
theorem C3_projectPointToGreatCircle_degenerate
    (latA lonA latB lonB latC lonC : ℝ) (A B C n : Vec3)
    (hA : A = latLonToCartesian latA lonA) (hB : B = latLonToCartesian latB lonB)
    (hC : C = latLonToCartesian latC lonC) (hn : n = crossVec A B) :
    (projectPointToGreatCircle latA lonA latB lonB latC lonC = Except.error degenerateMsg
      ↔ dotVec n n < 1e-12)
    ∧ (latB = latA ∧ lonB = lonA →
        projectPointToGreatCircle latA lonA latB lonB latC lonC = Except.error degenerateMsg)
    ∧ (latB = -latA ∧ lonB = lonA + 180 →
        projectPointToGreatCircle latA lonA latB lonB latC lonC = Except.error degenerateMsg)
    ∧ (¬ dotVec n n < 1e-12 →
        projectPointToGreatCircle latA lonA latB lonB latC lonC
          = Except.ok (projectedPoint C n)) := by
  subst hA hB hC hn
  have hunfold : ∀ latB' lonB' : ℝ,
      projectPointToGreatCircle latA lonA latB' lonB' latC lonC =
        if dotVec (crossVec (latLonToCartesian latA lonA) (latLonToCartesian latB' lonB'))
            (crossVec (latLonToCartesian latA lonA) (latLonToCartesian latB' lonB')) < 1e-12
        then Except.error degenerateMsg
        else Except.ok (projectedPoint (latLonToCartesian latC lonC)
          (crossVec (latLonToCartesian latA lonA) (latLonToCartesian latB' lonB'))) :=
    fun _ _ => rfl
  refine ⟨?_, ?_, ?_, ?_⟩
  · rw [hunfold]
    split_ifs with h
    · exact iff_of_true rfl h
    · exact iff_of_false (by simp) h
  · rintro ⟨h1, h2⟩
    subst h1
    subst h2
    rw [hunfold, if_pos]
    rw [crossVec_self, dotVec_zero]
    norm_num
  · rintro ⟨h1, h2⟩
    subst h1
    subst h2
    rw [hunfold, if_pos]
    rw [latLonToCartesian_antipodal, crossVec_neg, dotVec_zero]
    norm_num
  · intro h
    rw [hunfold, if_neg h]

theorem C3_witness :
    projectPointToGreatCircle 10 20 10 20 30 40 = Except.error degenerateMsg :=
  (C3_projectPointToGreatCircle_degenerate 10 20 10 20 30 40
    (latLonToCartesian 10 20) (latLonToCartesian 10 20) (latLonToCartesian 30 40)
    (crossVec (latLonToCartesian 10 20) (latLonToCartesian 10 20))
    rfl rfl rfl rfl).2.1 ⟨rfl, rfl⟩

/-- Claim C6 (amended): the path-follow phase at frame counter `index` is
`speedPerFrame * index / L` with `L = distance * 1000` the total length in
meters, and the run is terminal exactly when the phase exceeds 1; the
phase first exceeds 1 at frame index `⌊L / speedPerFrame⌋ + 1` (which is
`⌈L / speedPerFrame⌉` unless `speedPerFrame` divides `L` exactly, in which
case the phase at `⌈L / speedPerFrame⌉` equals exactly 1 and one more
frame is needed before the promise resolves). -/
theorem C6_animatePath_phase_amended (speed distance L : ℝ) (hL : L = distance * 1000)
    (hs : 0 < speed) (hLpos : 0 < L) :
    (∀ index : ℕ, animatePathPhase speed distance index = speed * index / L)
    ∧ (∀ index : ℕ, animatePathTerminal speed distance index ↔
        animatePathPhase speed distance index > 1)
    ∧ (∀ index : ℕ, animatePathTerminal speed distance index ↔ L / speed < index)
    ∧ ¬ animatePathTerminal speed distance ⌊L / speed⌋₊
    ∧ animatePathTerminal speed distance (⌊L / speed⌋₊ + 1) := by
  have key : ∀ index : ℕ, animatePathPhase speed distance index = speed * index / L := by
    intro i
    rw [animatePathPhase, hL]
  have hterm : ∀ i : ℕ, animatePathTerminal speed distance i ↔ L / speed < (i : ℝ) := by
    intro i
    rw [animatePathTerminal, gt_iff_lt, key i, one_lt_div hLpos, div_lt_iff₀ hs, mul_comm]
  refine ⟨key, fun i => Iff.rfl, hterm, ?_, ?_⟩
  · rw [hterm]
    push_neg
    exact Nat.floor_le (div_nonneg hLpos.le hs.le)
  · rw [hterm]
    push_cast
    exact Nat.lt_floor_add_one (L / speed)

/-- Claim C6, counterexample to the claim as stated: with a track of total
length `L = 1` meter (`distance = 1/1000` km) and `speedPerFrame = 1`,
`ceil (L / speedPerFrame) = 1` but the phase at frame index 1 is exactly 1,
not greater than 1, so the promise has not yet resolved after
`ceil (L / speedPerFrame)` frames. -/
theorem C6_counterexample_divisible :
    ⌈(1 : ℝ) / 1⌉₊ = 1 ∧ animatePathPhase 1 (1 / 1000) 1 = 1
      ∧ ¬ animatePathTerminal 1 (1 / 1000) 1 := by
  refine ⟨by norm_num, ?_, ?_⟩
  · rw [animatePathPhase]
    norm_num
  · rw [animatePathTerminal, animatePathPhase]
    norm_num

theorem C6_witness : animatePathTerminal 1 (1 / 1000) 2 := by
  have h := (C6_animatePath_phase_amended 1 (1 / 1000) 1 (by norm_num) one_pos one_pos).2.2.2.2
  rwa [show ⌊(1 : ℝ) / 1⌋₊ = 1 by norm_num] at h

/-- Claim C7: for the fly-in driver with `startAltitude = 3000000`,
`endAltitude = 1000` and `duration = 7000`, the phase of every frame is
clamped to at most 1, and on any frame whose elapsed time has reached the
duration the phase is exactly 1, the emitted altitude is exactly 1000 with
no eased overshoot, and the promise resolves on that frame (its payload
being that frame's bearing/altitude pair).  The easing curve is any
function with `ease 1 = 1` (the source uses the external
`d3.easeCubicOut`, modelled by `easeCubicOut`). -/
theorem C7_flyInAndRotate_terminal (ease : ℝ → ℝ) (hease : ease 1 = 1)
    (startBearing endBearing startPitch endPitch elapsed : ℝ) :
    (flyInFrame ease 3000000 1000 startBearing endBearing startPitch endPitch
        7000 elapsed).phase ≤ 1
    ∧ (7000 ≤ elapsed →
        flyInResolves ease 3000000 1000 startBearing endBearing startPitch endPitch
          7000 elapsed
        ∧ (flyInFrame ease 3000000 1000 startBearing endBearing startPitch endPitch
            7000 elapsed).altitude = 1000) := by
  have hphase : (flyInFrame ease 3000000 1000 startBearing endBearing startPitch endPitch
      7000 elapsed).phase = if elapsed / 7000 > 1 then 1 else elapsed / 7000 := rfl
  constructor
  · rw [hphase]
    split_ifs with h
    · exact le_refl 1
    · exact le_of_not_lt h
  · intro he
    have h1 : (flyInFrame ease 3000000 1000 startBearing endBearing startPitch endPitch
        7000 elapsed).phase = 1 := by
      rw [hphase]
      split_ifs with h
      · rfl
      · have hge : 1 ≤ elapsed / 7000 := by
          rw [le_div_iff₀ (by norm_num : (0 : ℝ) < 7000)]
          linarith
        exact le_antisymm (le_of_not_lt h) hge
    refine ⟨h1, ?_⟩
    have halt : (flyInFrame ease 3000000 1000 startBearing endBearing startPitch endPitch
        7000 elapsed).altitude
        = 3000000 + (1000 - 3000000) *
            ease ((flyInFrame ease 3000000 1000 startBearing endBearing startPitch endPitch
              7000 elapsed).phase) := rfl
    rw [halt, h1, hease]
    norm_num

theorem C7_witness :
    flyInResolves easeCubicOut 3000000 1000 0 90 40 60 7000 7000
    ∧ (flyInFrame easeCubicOut 3000000 1000 0 90 40 60 7000 7000).altitude = 1000 :=
  (C7_flyInAndRotate_terminal easeCubicOut (by norm_num [easeCubicOut]) 0 90 40 60
    7000).2 (le_refl 7000)

/-- Claim C8: for every zoom `z ∈ [0, 22]` and pitch `p ∈ [0, 89]`,
`heightToZoom (zoomToHeight z p) p` equals `z` exactly (hence within
`1e-9`): `heightToZoom` inverts `zoomToHeight` by multiplying the height
by `cos pitch` before taking `log2 (EARTH_RADIUS / adjustedHeight)`. -/
theorem C8_height_zoom_roundtrip (z p : ℝ) (hz0 : 0 ≤ z) (hz1 : z ≤ 22)
    (hp0 : 0 ≤ p) (hp1 : p ≤ 89) :
    MapboxZoomHeightConverter.heightToZoom (MapboxZoomHeightConverter.zoomToHeight z p) p = z
    ∧ |MapboxZoomHeightConverter.heightToZoom (MapboxZoomHeightConverter.zoomToHeight z p) p
        - z| ≤ 1e-9 := by
  have hR : (0 : ℝ) < MapboxZoomHeightConverter.EARTH_RADIUS := by
    rw [MapboxZoomHeightConverter.EARTH_RADIUS]
    norm_num
  have h2z : (0 : ℝ) < (2 : ℝ) ^ z := Real.rpow_pos_of_pos (by norm_num) z
  have hdiv : MapboxZoomHeightConverter.EARTH_RADIUS /
      (MapboxZoomHeightConverter.EARTH_RADIUS / (2 : ℝ) ^ z) = (2 : ℝ) ^ z := by
    field_simp
  have key : MapboxZoomHeightConverter.heightToZoom
      (MapboxZoomHeightConverter.zoomToHeight z p) p = z := by
    by_cases hp : p = 0
    · subst hp
      simp only [MapboxZoomHeightConverter.zoomToHeight,
        MapboxZoomHeightConverter.heightToZoom, eq_self_iff_true, if_true]
      rw [hdiv]
      exact Real.logb_rpow (by norm_num) (by norm_num)
    · have hcos : 0 < Real.cos (p * (Real.pi / 180)) := by
        apply Real.cos_pos_of_mem_Ioo
        have hpi := Real.pi_pos
        constructor
        · nlinarith
        · nlinarith
      simp only [MapboxZoomHeightConverter.zoomToHeight,
        MapboxZoomHeightConverter.heightToZoom, if_neg hp]
      rw [div_mul_cancel₀ _ hcos.ne', hdiv]
      exact Real.logb_rpow (by norm_num) (by norm_num)
  refine ⟨key, ?_⟩
  rw [key, sub_self, abs_zero]
  norm_num

theorem initDataLoop_chain (coordsAll simplified : List (ℝ × ℝ)) (ρ : ℝ × ℝ → ℝ)
    (dist : ℝ) :
    ∀ (rem : List (ℝ × ℝ)) (index simplifiedIndex lastIndex : ℕ)
      (acc L : List BearingSeg),
      initDataLoop coordsAll simplified ρ dist rem index simplifiedIndex lastIndex acc
        = some L →
      ∃ T, L = acc.reverse ++ T ∧ ChainedFrom coordsAll ρ dist lastIndex T := by
  intro rem
  induction rem with
  | nil =>
    intro index sIdx lastIdx acc L h
    simp only [initDataLoop, Option.some.injEq] at h
    subst h
    exact ⟨[], by simp, trivial⟩
  | cons c rest ih =>
    intro index sIdx lastIdx acc L h
    simp only [initDataLoop] at h
    split at h
    · exact absurd h (by simp)
    · next s hs =>
      split_ifs at h with hc
      · obtain ⟨T', hT', hch⟩ := ih (index + 1) (sIdx + 1) index _ L h
        refine ⟨(⟨lastIdx, ρ (coordsAll.getD lastIdx (0, 0)) / dist, index,
            ρ (coordsAll.getD index (0, 0)) / dist,
            getBearing (simplified.getD (sIdx - 1) (0, 0)) c⟩ : BearingSeg) :: T', ?_, ?_⟩
        · rw [hT', List.reverse_cons, List.append_assoc]
          rfl
        · exact ⟨rfl, rfl, rfl, hch⟩
      · exact ih (index + 1) sIdx lastIdx acc L h

theorem chainedFrom_contiguous (coordsAll : List (ℝ × ℝ)) (ρ : ℝ × ℝ → ℝ) (dist : ℝ) :
    ∀ (L : List BearingSeg) (k : ℕ), ChainedFrom coordsAll ρ dist k L →
      ∀ (i : ℕ) (a b : BearingSeg), L.get? i = some a → L.get? (i + 1) = some b →
        a.rRatio = b.lRatio := by
  intro L
  induction L with
  | nil =>
    intro k _ i a b ha
    simp at ha
  | cons seg rest ih =>
    intro k hch i a b ha hb
    obtain ⟨_, _, hrr, hrest⟩ := hch
    cases i with
    | zero =>
      cases ha
      cases rest with
      | nil => simp at hb
      | cons seg2 rest2 =>
        cases hb
        obtain ⟨hl2, hlr2, _, _⟩ := hrest
        rw [hrr, hlr2]
    | succ j =>
      exact ih seg.r hrest j a b ha hb

theorem chainedFrom_getLast (coordsAll : List (ℝ × ℝ)) (ρ : ℝ × ℝ → ℝ) (dist : ℝ) :
    ∀ (L : List BearingSeg) (k : ℕ) (segL : BearingSeg),
      ChainedFrom coordsAll ρ dist k L → L.getLast? = some segL →
      segL.rRatio = ρ (coordsAll.getD segL.r (0, 0)) / dist := by
  intro L
  induction L with
  | nil =>
    intro k segL _ hlast
    simp at hlast
  | cons seg rest ih =>
    intro k segL hch hlast
    obtain ⟨_, _, hrr, hrest⟩ := hch
    cases rest with
    | nil =>
      simp only [List.getLast?_singleton, Option.some.injEq] at hlast
      subst hlast
      exact hrr
    | cons seg2 rest2 =>
      rw [List.getLast?_cons_cons] at hlast
      exact ih seg.r segL hrest hlast

/-- Claim C5: for every track whose bearing-schedule precompute succeeds,
the schedule is contiguous and exhaustive: the first interval's start
ratio is 0, the last interval's end ratio is 1, and each interval's end
ratio equals the next interval's start ratio.  The external geometry
collaborators are abstracted: `ρ` is the slice-length function
(`getLineRatio`) and `dist` the total track length, with `ρ` vanishing at
the track head and reaching `dist` at the track end, and the last
interval closing at the final coordinate. -/
theorem C5_bearing_schedule_contiguous
    (coords simplified : List (ℝ × ℝ)) (ρ : ℝ × ℝ → ℝ) (dist : ℝ)
    (L : List BearingSeg) (c0 cN : ℝ × ℝ) (segH segL : BearingSeg)
    (hrun : initData coords simplified ρ dist = some L)
    (hhead : L.head? = some segH) (hlast : L.getLast? = some segL)
    (hc0 : coords.head? = some c0) (hρ0 : ρ c0 = 0)
    (hcN : coords.getLast? = some cN) (hρN : ρ cN = dist) (hdist : dist ≠ 0)
    (hr : segL.r = coords.length - 1) :
    segH.lRatio = 0 ∧ segL.rRatio = 1 ∧
    ∀ (i : ℕ) (a b : BearingSeg), L.get? i = some a → L.get? (i + 1) = some b →
      a.rRatio = b.lRatio := by
  obtain ⟨T, hT, hch⟩ := initDataLoop_chain coords simplified ρ dist coords 0 1 0 [] L hrun
  have hLT : L = T := by simpa using hT
  rw [← hLT] at hch
  refine ⟨?_, ?_, ?_⟩
  · cases L with
    | nil => simp at hhead
    | cons seg rest =>
      obtain ⟨hl, hlr, _, _⟩ := hch
      have hseg : segH = seg := by
        simp only [List.head?_cons, Option.some.injEq] at hhead
        exact hhead.symm
      have hd : coords.getD 0 (0, 0) = c0 := by
        rw [List.getD_eq_get?, List.get?_zero, hc0]
        rfl
      rw [hseg, hlr, hd, hρ0, zero_div]
  · have hlr := chainedFrom_getLast coords ρ dist L 0 segL hch hlast
    have hd : coords.getD (coords.length - 1) (0, 0) = cN := by
      rw [List.getD_eq_get?, ← List.getLast?_eq_get?, hcN]
      rfl
    rw [hlr, hr, hd, hρN, div_self hdist]
  · exact chainedFrom_contiguous coords ρ dist L 0 hch

theorem C5_witness :
    ((⟨0, 0, 1, 1 / 2, getBearing (0, 0) (1, 0)⟩ : BearingSeg)).lRatio = 0
    ∧ ((⟨1, 1 / 2, 2, 1, getBearing (1, 0) (2, 0)⟩ : BearingSeg)).rRatio = 1
    ∧ ((⟨0, 0, 1, 1 / 2, getBearing (0, 0) (1, 0)⟩ : BearingSeg)).rRatio
        = ((⟨1, 1 / 2, 2, 1, getBearing (1, 0) (2, 0)⟩ : BearingSeg)).lRatio := by
  have hrun : initData exTrack exTrack (fun p => p.1) 2 = some exSchedule := by
    norm_num [initData, initDataLoop, exTrack, exSchedule, List.get?, List.getD,
      Prod.ext_iff]
  have h := C5_bearing_schedule_contiguous exTrack exTrack (fun p => p.1) 2 exSchedule
    (0, 0) (2, 0)
    ⟨0, 0, 1, 1 / 2, getBearing (0, 0) (1, 0)⟩
    ⟨1, 1 / 2, 2, 1, getBearing (1, 0) (2, 0)⟩
    hrun rfl rfl rfl rfl rfl rfl (by norm_num) rfl
  exact ⟨h.1, h.2.1, h.2.2 0 _ _ rfl rfl⟩

theorem C8_witness :
    MapboxZoomHeightConverter.heightToZoom
      (MapboxZoomHeightConverter.zoomToHeight 1 60) 60 = 1 :=
  (C8_height_zoom_roundtrip 1 60 (by norm_num) (by norm_num) (by norm_num) (by norm_num)).1

end

end ThreeDMap
